import Mathlib

/-!
Verification of the MABWiser simulation engine (mabwiser/simulator/simulator.py)
against its natural-language specification.

The development shallowly embeds the parts of the Simulator class that the
claims are about:

* descriptive arm statistics (get_stats / get_arm_stats),
* the ordered train/test split (_run_train_test_split, is_ordered branch),
* constructor argument validation (_validate_args),
* the chunked replay engine (_offline_test_bandits, _online_test_bandits,
  _online_test_bandits_chunks), including the per-chunk shared distance cache
  and the neighborhood bookkeeping guarded by the is_quick flag,
* the policy-wrapping step of _train_bandits.

Rewards and descriptive statistics are embedded with exact rational
arithmetic; indices are naturals.  The two computations whose results pass
through Python float arithmetic with claim-relevant rounding — the ordered
split's train size and the batch-size bound — are embedded with an exact
model of IEEE binary64 rounding over dyadic rationals.  Python list slicing
l[a:b] (which clamps out-of-range bounds) is embedded as pySlice.  The candidate policies themselves
(MAB objects and the simulator subclasses in mabwiser/simulator/mab.py) are
external collaborators; they are embedded as records of opaque functions
following the ModelAdapter contract of the specification, with an internal
state threaded through predict calls.
-/

namespace MabSim

/-- Ceiling division on naturals: int(math.ceil(a / b)) for b > 0. -/
def ceilDiv (a b : Nat) : Nat := (a + b - 1) / b

/-- Python slice l[a:b] for 0 ≤ a ≤ b: out-of-range bounds are clamped. -/
def pySlice {α : Type} (l : List α) (a b : Nat) : List α := (l.take b).drop a

theorem pySlice_nil {α : Type} (a b : Nat) : pySlice ([] : List α) a b = [] := by
  simp [pySlice]

theorem pySlice_length {α : Type} (l : List α) (a b : Nat) :
    (pySlice l a b).length = min b l.length - a := by
  simp [pySlice]

/-! ## Descriptive arm statistics

Embeds Simulator.get_stats and Simulator.get_arm_stats.  numpy's std is the
square root of the mean squared deviation; the square root of a rational is
in general irrational, so the record stores the squared standard deviation
(stdSq); std equals zero exactly when stdSq does, which is all the claims
inspect. -/

/-- Result record of get_stats: count, sum, min, max, mean and (squared) std. -/
structure ArmStats where
  count : Nat
  sum : ℚ
  min : ℚ
  max : ℚ
  mean : ℚ
  stdSq : ℚ
  deriving DecidableEq, Repr

/-- Minimum of a list of rationals (np.min; the sources only apply it to
nonempty data). -/
def listMin : List ℚ → ℚ
  | [] => 0
  | x :: xs => xs.foldl min x

/-- Maximum of a list of rationals (np.max). -/
def listMax : List ℚ → ℚ
  | [] => 0
  | x :: xs => xs.foldl max x

/-- Simulator.get_stats: descriptive statistics of one arm's rewards. -/
def getStats (rewards : List ℚ) : ArmStats :=
  let n : ℚ := rewards.length
  let mean := rewards.sum / n
  { count := rewards.length
    sum := rewards.sum
    min := listMin rewards
    max := listMax rewards
    mean := mean
    stdSq := ((rewards.map (fun r => (r - mean) ^ 2)).sum) / n }

/-- The all-zero record returned for an arm with no historic data. -/
def zeroStats : ArmStats := ⟨0, 0, 0, 0, 0, 0⟩

/-- The rewards at the positions whose decision equals the arm
(rewards[np.where(decisions == arm)]). -/
def selectedRewards (decisions : List Int) (rewards : List ℚ) (arm : Int) : List ℚ :=
  ((decisions.zip rewards).filter (fun p => p.1 == arm)).map (fun p => p.2)

/-- The per-arm body of Simulator.get_arm_stats: statistics over the selected
rewards when the arm occurs, and the zero record otherwise. -/
def armStatsOf (decisions : List Int) (rewards : List ℚ) (arm : Int) : ArmStats :=
  let sel := selectedRewards decisions rewards arm
  if sel.isEmpty then zeroStats else getStats sel

/-- Simulator.get_arm_stats: the arm-to-stats dictionary, one entry per arm. -/
def getArmStats (arms : List Int) (decisions : List Int) (rewards : List ℚ) :
    List (Int × ArmStats) :=
  arms.map (fun arm => (arm, armStatsOf decisions rewards arm))

/-! ## IEEE binary64 arithmetic on dyadic rationals

The constructor receives test_size as a Python float, i.e. an IEEE binary64
value, and the source computes int(len(decisions) * (1 - test_size)) and
math.ceil(len(decisions) * test_size) in binary64 arithmetic.  Every finite
binary64 value is a dyadic rational m / 2^e, and every binary64 operation
returns the exact real result rounded to 53 significant bits with ties to
even; the embedding therefore carries dyadic rationals as explicit
numerator/exponent pairs and implements that rounding exactly, on naturals.
The int-to-float conversion of len(decisions) is exact for every dataset
that fits in memory (below 2^53 rows), so a float product is the exact
product rounded once.  Overflow and subnormals are out of reach for these
magnitudes and are not modelled. -/

/-- Floor of the base-2 logarithm by fuelled halving; the fuel of 4096
bits is far beyond any integer a binary64 computation can produce. -/
def log2fuel : Nat → Nat → Nat
  | 0, _ => 0
  | fuel + 1, n => if n ≤ 1 then 0 else log2fuel fuel (n / 2) + 1

/-- Floor of the base-2 logarithm (0 for inputs below 2). -/
def nlog2 (n : Nat) : Nat := log2fuel 4096 n

/-- A nonnegative dyadic rational num / 2^exp: the value class of finite
nonnegative binary64 numbers. -/
structure Dy where
  num : Nat
  exp : Nat
  deriving DecidableEq, Repr

/-- Round an integer significand to 53 significant bits, ties to even:
returns (m, sh) with the rounded value m * 2^sh.  This is exactly IEEE
round-to-nearest-even restricted to nonnegative values in the normal
range. -/
def roundSig53 (v : Nat) : Nat × Nat :=
  let L := nlog2 v + 1
  if L ≤ 53 then (v, 0)
  else
    let sh := L - 53
    let q := v / 2 ^ sh
    let r := v % 2 ^ sh
    let half := 2 ^ (sh - 1)
    if r < half then (q, sh)
    else if half < r then (q + 1, sh)
    else if q % 2 = 0 then (q, sh) else (q + 1, sh)

/-- Round a dyadic rational to binary64 precision (53 significant bits,
ties to even). -/
def Dy.round53 (x : Dy) : Dy :=
  let p := roundSig53 x.num
  if p.2 ≤ x.exp then ⟨p.1, x.exp - p.2⟩ else ⟨p.1 * 2 ^ (p.2 - x.exp), 0⟩

/-- The exact difference 1 - x for x ≤ 1 (the caller rounds, as the float
subtraction does). -/
def Dy.oneSub (x : Dy) : Dy := ⟨2 ^ x.exp - x.num, x.exp⟩

/-- The exact product n * x (the caller rounds, as the float multiplication
does). -/
def Dy.mulNat (n : Nat) (x : Dy) : Dy := ⟨n * x.num, x.exp⟩

/-- int() truncation of a nonnegative dyadic value: its floor. -/
def Dy.floorN (x : Dy) : Nat := x.num / 2 ^ x.exp

/-- math.ceil of a nonnegative dyadic value. -/
def Dy.ceilN (x : Dy) : Nat := ceilDiv x.num (2 ^ x.exp)

/-- The exact rational value of a dyadic number. -/
def Dy.toRat (x : Dy) : ℚ := (x.num : ℚ) / 2 ^ x.exp

/-- The binary64 value of the Python literal 0.1:
3602879701896397 / 2^55. -/
def d01 : Dy := ⟨3602879701896397, 55⟩

/-- The binary64 value of the Python literal 0.3:
5404319552844595 / 2^54. -/
def d03 : Dy := ⟨5404319552844595, 54⟩

/-! ## Ordered train/test split

Embeds the is_ordered branch of Simulator._run_train_test_split.  The source
computes train_size = int(len(decisions) * (1 - test_size)) in binary64
arithmetic: the subtraction rounds once, the multiplication rounds once, and
int() truncates (the floor, for nonnegative values). -/

/-- train_size = int(len(decisions) * (1 - test_size)), with test_size a
binary64 value and both float operations rounding to binary64 precision. -/
def orderedTrainSize (n : Nat) (testSize : Dy) : Nat :=
  ((testSize.oneSub.round53.mulNat n).round53).floorN

/-- Result of the train/test split. -/
structure SplitResult where
  trainDecisions : List Int
  trainRewards : List ℚ
  trainContexts : Option (List (List ℚ))
  testDecisions : List Int
  testRewards : List ℚ
  testContexts : Option (List (List ℚ))
  testIndices : List Nat
  deriving DecidableEq

/-- The is_ordered branch of Simulator._run_train_test_split: chronological
prefix/suffix split with test_indices = range(train_size, len(decisions)). -/
def runTrainTestSplitOrdered (decisions : List Int) (rewards : List ℚ)
    (contexts : Option (List (List ℚ))) (testSize : Dy) : SplitResult :=
  let trainSize := orderedTrainSize decisions.length testSize
  { trainDecisions := decisions.take trainSize
    trainRewards := rewards.take trainSize
    trainContexts := contexts.map (fun c => c.take trainSize)
    testDecisions := decisions.drop trainSize
    testRewards := rewards.drop trainSize
    testContexts := contexts.map (fun c => c.drop trainSize)
    testIndices := List.range' trainSize (decisions.length - trainSize) }

/-! ## Constructor argument validation

Embeds Simulator._validate_args.  Checks that Python performs through dynamic
typing (bandits is a list, names are strings, decisions/rewards/contexts are
array-like and two-dimensional) hold by construction in the typed embedding;
the remaining dynamic checks are embedded explicitly, in source order.  The
helpers check_fit_input / check_len / validate_2d live outside the embedded
file; their length checks are modelled from the spec sentence
"decisions/rewards type-checked and length-matched; contexts, if given, 2-D
and length-matched to decisions". -/

/-- The validation errors _validate_args can raise. -/
inductive SimError where
  | banditType
  | contextsLenMismatch
  | rewardsLenMismatch
  | batchTooLarge
  deriving DecidableEq, Repr

/-- One (name, mab) pair of the bandits argument.  isMabInstance embeds the
dynamic isinstance(mab, (MAB, BaseMAB)) check. -/
structure BanditSpec where
  name : String
  isMabInstance : Bool
  deriving DecidableEq, Repr

/-- math.ceil(len(decisions) * test_size) as the program computes it:
test_size arrives as a binary64 value (a dyadic rational), the int-to-float
conversion of the length is exact, the product rounds once to binary64
precision, and math.ceil of the resulting double is exact.  A test_size
whose denominator is not a power of two cannot reach the program (every
Python float is dyadic); for totality such values fall back to the exact
ceiling, and a negative test_size (equally unreachable through a float in
(0, 1)) is read as zero. -/
def floatCeilBound (n : Nat) (f : ℚ) : Nat :=
  let d := nlog2 f.den
  if f.den = 2 ^ d then ((Dy.mk (n * f.num.toNat) d).round53).ceilN
  else ceilDiv (n * f.num.toNat) f.den

/-- Simulator._validate_args, in source order: per-entry bandit checks, the
contexts length check, the decisions/rewards length check, and — when
batch_size is positive — the bound
batch_size ≤ math.ceil(len(decisions) * test_size), computed in binary64
arithmetic as the source does. -/
def validateArgs (bandits : List BanditSpec) (decisions : List Int) (rewards : List ℚ)
    (contexts : Option (List (List ℚ))) (testSize : ℚ) (batchSize : Nat) :
    Except SimError Unit := do
  if bandits.all (fun b => b.isMabInstance) then pure () else throw .banditType
  match contexts with
  | some cs => if cs.length = decisions.length then pure () else throw .contextsLenMismatch
  | none => pure ()
  if rewards.length = decisions.length then pure () else throw .rewardsLenMismatch
  if 0 < batchSize then
    if batchSize ≤ floatCeilBound decisions.length testSize then pure ()
    else throw .batchTooLarge
  else pure ()

/-! ## The chunked replay engine

The bandits the engine iterates over are the objects produced by
_train_bandits: the _RadiusSimulator / _KNearestSimulator / _LSHSimulator
wrappers, unwrapped custom _Neighbors policies, other contextual policies,
and context-free policies.  The engine's branching (isinstance checks on
those classes and the is_contextual flag) is embedded through a kind tag.
The policies' own predict / predict_expectations / calculate_distances /
partial_fit implementations live outside the embedded file (mabwiser/mab.py
and mabwiser/simulator/mab.py); following the ModelAdapter contract of the
specification they are embedded as opaque per-row functions with an internal
state (Nat) threaded through successive calls, so that prediction order and
call counts are observable.  A context row is a list of rationals; a row's
distances-to-training-history structure is abstracted to a single value
produced by the policy's distance function. -/

/-- The runtime class of a trained bandit, as discriminated by the engine's
isinstance checks. -/
inductive PKind where
  | radiusSim
  | knearestSim
  | lshSim
  | neighborsPlain
  | otherContextual
  | contextFree
  deriving DecidableEq, Repr

/-- mab.is_contextual. -/
def PKind.isContextual : PKind → Bool
  | .contextFree => false
  | _ => true

/-- isinstance(mab, (_RadiusSimulator, _KNearestSimulator)): the kinds that
participate in the shared distance cache. -/
def PKind.usesSharedDistances : PKind → Bool
  | .radiusSim => true
  | .knearestSim => true
  | _ => false

/-- isinstance(mab, _NeighborsSimulator): all three simulator wrappers. -/
def PKind.isNeighborsSimulator : PKind → Bool
  | .radiusSim => true
  | .knearestSim => true
  | .lshSim => true
  | _ => false

/-- Modelled from the spec (glossary and §4.5): a neighbor-based policy is one
recognized by the runner as radius-based, k-nearest, or approximate-hash
based. -/
def PKind.isNeighborBased : PKind → Bool
  | .radiusSim => true
  | .knearestSim => true
  | .lshSim => true
  | _ => false

/-- A trained bandit as the engine sees it: its runtime kind plus the
ModelAdapter operations, embedded as opaque functions over an internal
state.  distRow is one row of calculate_distances; predictCtxRow is one row
of contextual predict, taking the distance value installed for that row;
expectRow is one row of the expectation snapshots (row_arm_to_expectation /
predict_expectations); stepFree is one context-free predict() call; armExp
is arm_to_expectation; nbhdSizesSnap / nbhdStatsSnap are the
neighborhood_sizes / neighborhood_arm_to_stat snapshots; partialFitF is
partial_fit on a batch. -/
structure Policy where
  kind : PKind
  distRow : List ℚ → ℚ
  predictCtxRow : Nat → ℚ → List ℚ → Int × Nat
  expectRow : Nat → List ℚ → Int
  stepFree : Nat → Int × Nat
  armExp : Nat → Int
  nbhdSizesSnap : Nat → Int
  nbhdStatsSnap : Nat → Int
  partialFitF : Nat → List Int → List ℚ → Option (List (List ℚ)) → Nat

/-- What a bandit did to the per-chunk distance cache. -/
inductive CacheAction where
  | computed
  | receivedCache
  | noTouch
  deriving DecidableEq, Repr

/-- Contextual predict over a chunk: one predictCtxRow call per row, threading
the internal state, each row consuming the distance value installed for it. -/
def predictCtxChunk (p : Policy) : Nat → List ℚ → List (List ℚ) → List Int × Nat
  | s, d :: ds, c :: cs =>
    let r := p.predictCtxRow s d c
    let rest := predictCtxChunk p r.2 ds cs
    (r.1 :: rest.1, rest.2)
  | s, _, _ => ([], s)

/-- Context-free predict over a chunk: [mab.predict() for _ in range(n)],
threading the internal state. -/
def predictFreeChunk (p : Policy) : Nat → Nat → List Int × Nat
  | s, 0 => ([], s)
  | s, n + 1 =>
    let r := p.stepFree s
    let rest := predictFreeChunk p r.2 n
    (r.1 :: rest.1, rest.2)

/-- Per-bandit outputs of one chunk, in bandit order. -/
structure ChunkOut where
  preds : List (List Int)
  exps : List (List Int)
  states : List Nat
  actions : List CacheAction
  deriving DecidableEq

/-- The inner bandit loop of one chunk, common to _offline_test_bandits and
_online_test_bandits_chunks.  The distances variable (None at chunk start) is
threaded through the bandits: the first _RadiusSimulator/_KNearestSimulator
computes calculate_distances on the chunk contexts, later ones receive it via
set_distances.  Offline, context-free bandits append no expectations in the
chunk loop, and an unwrapped _Neighbors policy contributes its single
arm_to_expectation dictionary per chunk; online, context-free bandits append
arm_to_expectation per chunk and _LSHSimulator slices its expectation log by
the whole batch (row_arm_to_expectation[start:stop]). -/
def runChunkBandits (online : Bool) (batchCtxs : List (List ℚ)) (ctxs : List (List ℚ))
    (nRows : Nat) : Option (List ℚ) → List (Policy × Nat) → ChunkOut
  | _, [] => ⟨[], [], [], []⟩
  | dists, (p, s) :: rest =>
    if p.kind.isContextual then
      if p.kind.usesSharedDistances then
        let dAct : List ℚ × CacheAction :=
          match dists with
          | none => (ctxs.map p.distRow, .computed)
          | some d0 => (d0, .receivedCache)
        let r := predictCtxChunk p s dAct.1 ctxs
        let ex := ctxs.map (p.expectRow s)
        let out := runChunkBandits online batchCtxs ctxs nRows (some dAct.1) rest
        ⟨r.1 :: out.preds, ex :: out.exps, r.2 :: out.states, dAct.2 :: out.actions⟩
      else
        let r := predictCtxChunk p s (ctxs.map p.distRow) ctxs
        let ex :=
          if p.kind = .lshSim then
            (if online then batchCtxs.map (p.expectRow s) else ctxs.map (p.expectRow s))
          else if p.kind = .neighborsPlain ∧ online = false then [p.armExp s]
          else ctxs.map (p.expectRow s)
        let out := runChunkBandits online batchCtxs ctxs nRows dists rest
        ⟨r.1 :: out.preds, ex :: out.exps, r.2 :: out.states, .noTouch :: out.actions⟩
    else
      let r := predictFreeChunk p s nRows
      let ex := if online then [p.armExp s] else []
      let out := runChunkBandits online batchCtxs ctxs nRows dists rest
      ⟨r.1 :: out.preds, ex :: out.exps, r.2 :: out.states, .noTouch :: out.actions⟩

/-! ### Offline mode -/

/-- Accumulating state of the offline replay loop.  preds and exps accumulate
bandit_to_predictions / bandit_to_expectations entries (both initialized to
empty lists in _train_bandits); nbhdStats records whether and with what value
bandit_to_arm_to_stats_neighborhoods was overwritten (none = still the
initial empty value); cacheActs records, per chunk in order, what each bandit
did to the distance cache. -/
structure OfflineState where
  states : List Nat
  preds : List (List Int)
  exps : List (List Int)
  nbhdStats : List (Option Int)
  cacheActs : List (List CacheAction)

/-- One iteration of the offline chunk loop: slice the chunk, run the bandit
loop with a fresh (None) distance cache, append predictions and expectations,
and for _NeighborsSimulator bandits outside quick mode overwrite the
neighborhood statistics snapshot. -/
def offlineChunkStep (isQuick : Bool) (bandits : List Policy) (testDecisions : List Int)
    (testCtxs : List (List ℚ)) (chunkSize : Nat) (st : OfflineState) (idx : Nat) :
    OfflineState :=
  let start := idx * chunkSize
  let stop := min ((idx + 1) * chunkSize) testDecisions.length
  let chunkDecision := pySlice testDecisions start stop
  let chunkCtxs := pySlice testCtxs start stop
  let out := runChunkBandits false [] chunkCtxs chunkDecision.length none (bandits.zip st.states)
  { states := out.states
    preds := List.zipWith (· ++ ·) st.preds out.preds
    exps := List.zipWith (· ++ ·) st.exps out.exps
    nbhdStats :=
      List.zipWith (fun (ps : Policy × Nat) old =>
          if ps.1.kind.isNeighborsSimulator ∧ isQuick = false then
            some (ps.1.nbhdStatsSnap ps.2)
          else old)
        (bandits.zip out.states) st.nbhdStats
    cacheActs := st.cacheActs ++ [out.actions] }

/-- The initial per-bandit result tables set up in _train_bandits. -/
def initOfflineState (bandits : List Policy) (states0 : List Nat) : OfflineState :=
  ⟨states0, bandits.map (fun _ => []), bandits.map (fun _ => []),
    bandits.map (fun _ => none), []⟩

/-- The chunk loop of _offline_test_bandits over all chunk indices. -/
def offlineChunkPhase (isQuick : Bool) (bandits : List Policy) (testDecisions : List Int)
    (testCtxs : List (List ℚ)) (chunkSize : Nat) (states0 : List Nat) : OfflineState :=
  (List.range (ceilDiv testDecisions.length chunkSize)).foldl
    (offlineChunkStep isQuick bandits testDecisions testCtxs chunkSize)
    (initOfflineState bandits states0)

/-- A final bandit_to_expectations entry: either the per-row/per-chunk list
accumulated during replay, or the single arm_to_expectation dictionary that
the final offline loop stores for context-free bandits. -/
inductive ExpEntry where
  | perRow (items : List Int)
  | single (d : Int)
  deriving DecidableEq, Repr

/-- The externally observed offline results. -/
structure OfflineResult where
  preds : List (List Int)
  exps : List ExpEntry
  nbhdSize : List (Option Int)
  nbhdStats : List (Option Int)
  cacheActs : List (List CacheAction)

/-- _offline_test_bandits: the chunk loop followed by the final per-bandit
loop, which overwrites the expectations entry of every context-free bandit
with its single arm_to_expectation dictionary and, outside quick mode, stores
neighborhood sizes for _NeighborsSimulator bandits. -/
def offlineRun (isQuick : Bool) (bandits : List Policy) (testDecisions : List Int)
    (testCtxs : List (List ℚ)) (chunkSize : Nat) (states0 : List Nat) : OfflineResult :=
  let st := offlineChunkPhase isQuick bandits testDecisions testCtxs chunkSize states0
  { preds := st.preds
    exps :=
      List.zipWith (fun (ps : Policy × Nat) (acc : List Int) =>
          if ps.1.kind.isContextual then ExpEntry.perRow acc
          else ExpEntry.single (ps.1.armExp ps.2))
        (bandits.zip st.states) st.exps
    nbhdSize :=
      (bandits.zip st.states).map (fun ps =>
        if ps.1.kind.isNeighborsSimulator ∧ isQuick = false then
          some (ps.1.nbhdSizesSnap ps.2)
        else none)
    nbhdStats := st.nbhdStats
    cacheActs := st.cacheActs }

/-! ### Online mode -/

/-- Checkpoint events of the online replay, in execution order.  eval b i is
the _get_partial_evaluation call for bandit b and batch i (one confusion
matrix appended and the min/mean/max snapshots stored under key i);
update b i is bandit b's partial_fit call with batch i's decisions, rewards
and, for contextual bandits, contexts; evalTotal b is the final
_get_partial_evaluation call with key "total" (one more confusion matrix over
the whole test set and the "total" min/mean/max snapshots over the full
accumulated prediction history). -/
inductive REvent where
  | eval (b i : Nat)
  | update (b i : Nat)
  | evalTotal (b : Nat)
  deriving DecidableEq, Repr

/-- Accumulator of the chunk loop inside one online batch.  chunkStart is the
chunk_start variable: initialized to 0 before the loop; the loop body never
modifies it. -/
structure OnlineBatchAcc where
  chunkStart : Nat
  states : List Nat
  bPreds : List (List Int)
  bExps : List (List Int)

/-- One iteration of the chunk loop of _online_test_bandits_chunks:
chunk_stop = min(chunk_start + chunk_size, batch_size), slice the batch at
[chunk_start, chunk_stop), run the bandit loop with a fresh (None) distance
cache, and accumulate batch-level predictions and expectations.  chunk_start
is left unchanged, exactly as in the source. -/
def onlineChunkIter (bandits : List Policy) (batchCtxs : List (List ℚ))
    (batchDecisions : List Int) (batchSize chunkSize : Nat) (acc : OnlineBatchAcc)
    (_j : Nat) : OnlineBatchAcc :=
  let chunkStop := min (acc.chunkStart + chunkSize) batchSize
  let chunkCtxs := pySlice batchCtxs acc.chunkStart chunkStop
  let chunkDecisions := pySlice batchDecisions acc.chunkStart chunkStop
  let out := runChunkBandits true batchCtxs chunkCtxs chunkDecisions.length none
    (bandits.zip acc.states)
  ⟨acc.chunkStart, out.states,
    List.zipWith (· ++ ·) acc.bPreds out.preds,
    List.zipWith (· ++ ·) acc.bExps out.exps⟩

/-- Accumulating state of the online batch loop, extending the offline result
tables with the checkpoint trace. -/
structure OnlineState where
  states : List Nat
  preds : List (List Int)
  exps : List (List Int)
  nbhdSize : List (Option Int)
  nbhdStats : List (Option Int)
  trace : List REvent

/-- One batch of _online_test_bandits_chunks: slice the batch
(stop = min(start + batch_size, len(test) + 1) as in the source; slicing
clamps the overshoot), run ceil(batch_size / chunk_size) chunk iterations,
then the per-bandit finalization loop: context-free expectations are replaced
by the single arm_to_expectation dictionary, batch predictions and
expectations are appended to the global tables, neighborhood bookkeeping is
written unless quick, the batch-i evaluation is recorded, and only then
partial_fit updates the bandit with the batch's data. -/
def onlineBatchStep (isQuick : Bool) (bandits : List Policy) (testDecisions : List Int)
    (testRewards : List ℚ) (testCtxs : List (List ℚ)) (batchSize chunkSize : Nat)
    (st : OnlineState) (i : Nat) : OnlineState :=
  let start := i * batchSize
  let stop := min (start + batchSize) (testDecisions.length + 1)
  let batchCtxs := pySlice testCtxs start stop
  let batchDecisions := pySlice testDecisions start stop
  let batchRewards := pySlice testRewards start stop
  let acc0 : OnlineBatchAcc :=
    ⟨0, st.states, bandits.map (fun _ => []), bandits.map (fun _ => [])⟩
  let acc := (List.range (ceilDiv batchSize chunkSize)).foldl
    (onlineChunkIter bandits batchCtxs batchDecisions batchSize chunkSize) acc0
  let bExps := List.zipWith (fun (ps : Policy × Nat) (ex : List Int) =>
      if ps.1.kind.isContextual then ex else [ps.1.armExp ps.2])
    (bandits.zip acc.states) acc.bExps
  { states := (bandits.zip acc.states).map (fun ps =>
      ps.1.partialFitF ps.2 batchDecisions batchRewards
        (if ps.1.kind.isContextual then some batchCtxs else none))
    preds := List.zipWith (· ++ ·) st.preds acc.bPreds
    exps := List.zipWith (· ++ ·) st.exps bExps
    nbhdSize := List.zipWith (fun (ps : Policy × Nat) old =>
        if (ps.1.kind = .radiusSim ∨ ps.1.kind = .lshSim) ∧ isQuick = false then
          some (ps.1.nbhdSizesSnap ps.2)
        else old)
      (bandits.zip acc.states) st.nbhdSize
    nbhdStats := List.zipWith (fun (ps : Policy × Nat) old =>
        if ps.1.kind.isNeighborsSimulator ∧ isQuick = false then
          some (ps.1.nbhdStatsSnap ps.2)
        else old)
      (bandits.zip acc.states) st.nbhdStats
    trace := st.trace ++
      (List.range bandits.length).flatMap (fun b => [REvent.eval b i, REvent.update b i]) }

/-- The externally observed online results. -/
structure OnlineResult where
  preds : List (List Int)
  exps : List (List Int)
  nbhdSize : List (Option Int)
  nbhdStats : List (Option Int)
  trace : List REvent

/-- The initial online result tables set up in _train_bandits. -/
def initOnlineState (bandits : List Policy) (states0 : List Nat) : OnlineState :=
  ⟨states0, bandits.map (fun _ => []), bandits.map (fun _ => []),
    bandits.map (fun _ => none), bandits.map (fun _ => none), []⟩

/-- _online_test_bandits: the batch loop of _online_test_bandits_chunks over
ceil(len(test) / batch_size) batches, followed by the final per-bandit loop
recording the "total" evaluation and, outside quick mode, the neighborhood
bookkeeping of _NeighborsSimulator bandits. -/
def onlineRun (isQuick : Bool) (bandits : List Policy) (testDecisions : List Int)
    (testRewards : List ℚ) (testCtxs : List (List ℚ)) (batchSize chunkSize : Nat)
    (states0 : List Nat) : OnlineResult :=
  let st := (List.range (ceilDiv testDecisions.length batchSize)).foldl
    (onlineBatchStep isQuick bandits testDecisions testRewards testCtxs batchSize chunkSize)
    (initOnlineState bandits states0)
  { preds := st.preds
    exps := st.exps
    nbhdSize := List.zipWith (fun (ps : Policy × Nat) old =>
        if ps.1.kind.isNeighborsSimulator ∧ isQuick = false then
          some (ps.1.nbhdSizesSnap ps.2)
        else old)
      (bandits.zip st.states) st.nbhdSize
    nbhdStats := List.zipWith (fun (ps : Policy × Nat) old =>
        if ps.1.kind.isNeighborsSimulator ∧ isQuick = false then
          some (ps.1.nbhdStatsSnap ps.2)
        else old)
      (bandits.zip st.states) st.nbhdStats
    trace := st.trace ++ (List.range bandits.length).map REvent.evalTotal }

/-! ### Policy wrapping in _train_bandits -/

/-- The underlying implementation class of a bandit supplied to the
constructor (mab._imp for MAB instances, the object itself otherwise). -/
inductive ImpKind where
  | radius
  | knearest
  | lshNearest
  | neighborsOther
  | otherCtx
  | ctxFree
  deriving DecidableEq, Repr

/-- The isinstance dispatch of _train_bandits: _Radius, _KNearest and
_LSHNearest implementations are replaced by their simulation-instrumented
wrappers (which receive the is_quick flag); everything else is kept as is. -/
def wrapImp : ImpKind → PKind
  | .radius => .radiusSim
  | .knearest => .knearestSim
  | .lshNearest => .lshSim
  | .neighborsOther => .neighborsPlain
  | .otherCtx => .otherContextual
  | .ctxFree => .contextFree

/-- The wrapping loop of _train_bandits over the bandit list. -/
def trainBanditsKinds : List ImpKind → List PKind
  | [] => []
  | k :: rest => wrapImp k :: trainBanditsKinds rest

/-! ## Claim-side notions -/

/-- The chunk_start/chunk_stop pairs generated by the chunk loop of
_online_test_bandits_chunks, iterated the given number of times.  The loop
body computes chunk_stop = min(chunk_start + chunk_size, batch_size); the
chunk_start variable is never modified inside the loop, so every recursive
call passes it on unchanged, exactly as the source does. -/
def onlineChunkBoundsGo (batchSize chunkSize : Nat) : Nat → Nat → List (Nat × Nat)
  | 0, _ => []
  | j + 1, chunkStart =>
    let chunkStop := min (chunkStart + chunkSize) batchSize
    (chunkStart, chunkStop) :: onlineChunkBoundsGo batchSize chunkSize j chunkStart

/-- The chunk bounds processed within one online batch:
chunk_start = 0 before the loop, ceil(batch_size / chunk_size) iterations. -/
def onlineChunkBounds (batchSize chunkSize : Nat) : List (Nat × Nat) :=
  onlineChunkBoundsGo batchSize chunkSize (ceilDiv batchSize chunkSize) 0

/-- Adjacency of consecutive bounds: each chunk's stop is the next chunk's
start. -/
def boundsAdjacent : List (Nat × Nat) → Bool
  | [] => true
  | [_] => true
  | a :: b :: rest => (a.2 == b.1) && boundsAdjacent (b :: rest)

/-- The tiling property claimed for the chunks of one batch: each chunk spans
[start, stop) with stop - start at most the chunk size, consecutive chunks
are adjacent, the first starts at 0 and the last stops at the batch length,
so together they cover the batch exactly once. -/
def chunksTileBatch (chunks : List (Nat × Nat)) (batchLen chunkSize : Nat) : Bool :=
  match chunks with
  | [] => batchLen == 0
  | c :: _ =>
    (c.1 == 0) &&
    ((chunks.getLastD c).2 == batchLen) &&
    chunks.all (fun p => p.1 ≤ p.2 && p.2 - p.1 ≤ chunkSize) &&
    boundsAdjacent chunks

/-- Modelled from the spec: the predictions of a single non-chunked pass over
the whole test set and the given policy states — one chunk covering every
test row, processed by the same per-bandit loop. -/
def specSinglePassPreds (bandits : List Policy) (states0 : List Nat)
    (testDecisions : List Int) (testCtxs : List (List ℚ)) : List (List Int) :=
  (runChunkBandits false [] testCtxs testDecisions.length none (bandits.zip states0)).preds

/-- The cache behavior described by claim C4 as stated: scanning the bandits
in evaluation order, the first neighbor-based policy computes the distances
and every later neighbor-based policy receives the cache; policies that are
not neighbor-based are unconstrained. -/
def claimFirstNeighborComputes : Bool → List (PKind × CacheAction) → Bool
  | _, [] => true
  | seen, (k, a) :: rest =>
    if k.isNeighborBased then
      (if seen then a == CacheAction.receivedCache else a == CacheAction.computed) &&
        claimFirstNeighborComputes true rest
    else
      claimFirstNeighborComputes seen rest

/-- The amended cache behavior: scanning the bandits in evaluation order, the
first radius/k-nearest simulator computes the distances, every later
radius/k-nearest simulator receives the cache, and every other policy leaves
the cache untouched. -/
def expectedCacheActions : Bool → List PKind → List CacheAction
  | _, [] => []
  | seen, k :: rest =>
    if k.usesSharedDistances then
      (if seen then CacheAction.receivedCache else CacheAction.computed) ::
        expectedCacheActions true rest
    else
      CacheAction.noTouch :: expectedCacheActions seen rest

/-- A policy of the given kind whose adapter functions are all constant:
used to instantiate counterexamples. -/
def constPolicy (k : PKind) : Policy :=
  { kind := k
    distRow := fun _ => 0
    predictCtxRow := fun s _ _ => (0, s)
    expectRow := fun _ _ => 0
    stepFree := fun s => (0, s)
    armExp := fun _ => 0
    nbhdSizesSnap := fun _ => 0
    nbhdStatsSnap := fun _ => 0
    partialFitF := fun s _ _ _ => s }

/-- A contextual (non-neighbor) policy predicting the first feature of each
context row, rounded down: its prediction sequence reproduces the rows it was
shown, making prediction order and coverage observable. -/
def echoPolicy : Policy :=
  { kind := .otherContextual
    distRow := fun _ => 0
    predictCtxRow := fun s _ c => (⌊c.headI⌋, s)
    expectRow := fun _ _ => 0
    stepFree := fun s => (0, s)
    armExp := fun _ => 0
    nbhdSizesSnap := fun _ => 0
    nbhdStatsSnap := fun _ => 0
    partialFitF := fun s _ _ _ => s }

/-! ## Supporting lemmas -/

theorem selectedRewards_length (decisions : List Int) (rewards : List ℚ) (arm : Int)
    (hlen : decisions.length = rewards.length) :
    (selectedRewards decisions rewards arm).length
      = (decisions.filter (fun d => d == arm)).length := by
  induction decisions generalizing rewards with
  | nil => simp [selectedRewards]
  | cons d ds ih =>
    cases rewards with
    | nil => simp at hlen
    | cons r rs =>
      simp only [List.length_cons, Nat.succ.injEq] at hlen
      have hrec := ih rs hlen
      simp only [selectedRewards] at hrec ⊢
      simp only [List.zip_cons_cons, List.filter_cons]
      by_cases h : d = arm
      · simp [h, hrec]
      · simp [h, hrec]

/-! ## Claims -/

/-- C1 (code bug): the claim says the chunks of one online batch tile the
batch without gaps or overlap.  In _online_test_bandits_chunks the
chunk_start variable is initialized to 0 and never advanced inside the chunk
loop, so with batch_size 4 and chunk size 2 the loop processes the bounds
[0, 2) twice: rows [2, 4) of the batch are never predicted and rows [0, 2)
are predicted twice.  The tiling predicate fails on the generated bounds
(and holds on the bounds [0, 2), [2, 4) the claim describes). -/
theorem c1_online_chunks_do_not_tile :
    onlineChunkBounds 4 2 = [(0, 2), (0, 2)] ∧
    chunksTileBatch (onlineChunkBounds 4 2) 4 2 = false ∧
    chunksTileBatch [(0, 2), (2, 4)] 4 2 = true := by
  decide

/-- C2 (code bug): the claim says predictions concatenated across chunks
equal those of a single non-chunked pass.  Because the online chunk loop
never advances chunk_start, a contextual policy that echoes the rows it is
shown predicts [10, 20, 10, 20] over one online batch of the four test rows
[10], [20], [30], [40] with batch_size 4 and chunk size 2, while the single
non-chunked pass over the same test set and policy state predicts
[10, 20, 30, 40]. -/
theorem c2_online_chunking_alters_predictions :
    (onlineRun false [echoPolicy] [0, 0, 0, 0] [0, 0, 0, 0]
        [[10], [20], [30], [40]] 4 2 [0]).preds = [[10, 20, 10, 20]] ∧
    specSinglePassPreds [echoPolicy] [0] [0, 0, 0, 0]
        [[10], [20], [30], [40]] = [[10, 20, 30, 40]] ∧
    (onlineRun false [echoPolicy] [0, 0, 0, 0] [0, 0, 0, 0]
        [[10], [20], [30], [40]] 4 2 [0]).preds ≠
      specSinglePassPreds [echoPolicy] [0] [0, 0, 0, 0] [[10], [20], [30], [40]] := by
  refine ⟨rfl, rfl, ?_⟩
  decide

/-- C8 counterexample: a bandit list with two entries sharing the name
"EG" passes _validate_args — construction does not fail, contradicting the
claim that duplicate names are rejected immediately. -/
theorem c8_duplicate_names_accepted :
    validateArgs [⟨"EG", true⟩, ⟨"EG", true⟩] [1, 2] [1, 2] none (1 / 2) 0
      = Except.ok () := by
  rfl

/-- C8 amended: _validate_args never reads the bandit names at all, so
uniqueness is not checked: renaming every bandit to the same name leaves the
validation result unchanged, and in particular duplicate names are accepted
whenever the same list with distinct names is. -/
theorem c8_names_never_checked (bandits : List BanditSpec) (decisions : List Int)
    (rewards : List ℚ) (contexts : Option (List (List ℚ))) (testSize : ℚ)
    (batchSize : Nat) :
    validateArgs bandits decisions rewards contexts testSize batchSize =
      validateArgs (bandits.map (fun p => ⟨"EG", p.isMabInstance⟩))
        decisions rewards contexts testSize batchSize := by
  simp [validateArgs, List.all_map, Function.comp]

/-- C4 counterexample: with an approximate-hash (_LSHSimulator) policy first
and a radius policy second, the LSH policy — the first neighbor-based policy
of the chunk in the spec's sense — never touches the distance cache; the
distances are computed by the second policy instead, contradicting the claim
that the first neighbor-based policy computes them and every subsequent
neighbor-based one receives them. -/
theorem c4_lsh_bypasses_cache :
    (runChunkBandits false [] [[0]] 1 none
        [(constPolicy .lshSim, 0), (constPolicy .radiusSim, 0)]).actions
      = [CacheAction.noTouch, CacheAction.computed] ∧
    PKind.isNeighborBased .lshSim = true ∧
    claimFirstNeighborComputes false
        [(PKind.lshSim, CacheAction.noTouch), (PKind.radiusSim, CacheAction.computed)]
      = false := by
  refine ⟨rfl, rfl, ?_⟩
  decide

theorem drop_range' (m : Nat) : ∀ s n : Nat,
    (List.range' s n).drop m = List.range' (s + m) (n - m) := by
  induction m with
  | zero => intro s n; simp
  | succ k ih =>
    intro s n
    cases n with
    | zero => simp
    | succ n' =>
      rw [List.range'_succ]
      simp only [List.drop_succ_cons]
      rw [ih (s + 1) n']
      congr 1 <;> omega

theorem drop_range (n m : Nat) : (List.range n).drop m = List.range' m (n - m) := by
  rw [List.range_eq_range', drop_range']
  simp

/-- C5 (code bug): the ordered split's train size is
int(len(decisions) * (1 - test_size)) computed in binary64 floating point.
At 90 rows with test_size 0.3 the program produces a 62-row train prefix,
while floor(90 * (1 - 0.3)) = 63 under both readings of the fraction (the
exact binary64 value of 0.3 and the intended 3/10): the split drops a row
the claim assigns to the train set.  At 10 rows with test_size 0.1 the
program produces 9 while the floor at the exact binary64 value of 0.1
is 8. -/
theorem c5_ordered_split_float_divergence :
    orderedTrainSize 90 d03 = 62 ∧
    (runTrainTestSplitOrdered ((List.range 90).map Int.ofNat)
        (List.replicate 90 (0 : ℚ)) none d03).trainDecisions.length = 62 ∧
    ⌊(90 : ℚ) * (1 - d03.toRat)⌋ = 63 ∧
    ⌊(90 : ℚ) * (1 - 3 / 10)⌋ = 63 ∧
    orderedTrainSize 10 d01 = 9 ∧
    ⌊(10 : ℚ) * (1 - d01.toRat)⌋ = 8 := by
  refine ⟨by decide, by decide, ?_, by norm_num, by decide, ?_⟩
  · simp only [d03, Dy.toRat]
    norm_num
  · simp only [d01, Dy.toRat]
    norm_num

/-- C6: for every arm, get_arm_stats returns a record whose count is the
number of decisions equal to that arm and whose sum is the sum of the
rewards at those positions; an arm with no occurrences gets the literal
all-zero record (count, sum, min, max, mean and squared std all zero — no
NaN can arise since the empty selection never reaches get_stats). -/
theorem c6_get_arm_stats (arms decisions : List Int) (rewards : List ℚ) (arm : Int)
    (hmem : arm ∈ arms) (hlen : decisions.length = rewards.length) :
    (arm, armStatsOf decisions rewards arm) ∈ getArmStats arms decisions rewards ∧
    (armStatsOf decisions rewards arm).count
        = (decisions.filter (fun d => d == arm)).length ∧
    (armStatsOf decisions rewards arm).sum
        = (selectedRewards decisions rewards arm).sum ∧
    ((decisions.filter (fun d => d == arm)).length = 0 →
        armStatsOf decisions rewards arm = zeroStats) := by
  have hsel := selectedRewards_length decisions rewards arm hlen
  refine ⟨?_, ?_, ?_, ?_⟩
  · simp only [getArmStats, List.mem_map]
    exact ⟨arm, hmem, rfl⟩
  · unfold armStatsOf
    by_cases h : (selectedRewards decisions rewards arm).isEmpty
    · rw [List.isEmpty_iff] at h
      rw [h] at hsel
      simp [h, zeroStats, ← hsel]
    · simp [h, getStats, ← hsel]
  · unfold armStatsOf
    by_cases h : (selectedRewards decisions rewards arm).isEmpty
    · rw [List.isEmpty_iff] at h
      simp [h, zeroStats]
    · simp [h, getStats]
  · intro h0
    rw [← hsel] at h0
    have hempty : selectedRewards decisions rewards arm = [] :=
      List.length_eq_zero.mp h0
    unfold armStatsOf
    simp [hempty]

/-- The binary64 value of the Python literal 0.1 as a rational:
3602879701896397 / 2^55. -/
def f01 : ℚ := ⟨3602879701896397, 36028797018963968, by norm_num, by decide⟩

/-- C7 counterexample: at 100 decisions, test_size the binary64 value of
0.1, and batch_size 11, the program's bound math.ceil(100 * 0.1) is
computed in floats as ceil(10.0) = 10 and validation raises the batch-size
error, while the claim's bound ceil(100 * test_size) = 11 admits
batch_size 11 — the claim's no-error half fails at a reachable input. -/
theorem c7_float_bound_rejects_exact_bound :
    validateArgs [⟨"a", true⟩] (List.replicate 100 (0 : Int))
        (List.replicate 100 (0 : ℚ)) none f01 11
      = Except.error SimError.batchTooLarge ∧
    floatCeilBound 100 f01 = 10 ∧
    ⌈(100 : ℚ) * f01⌉ = 11 := by
  refine ⟨by rfl, by decide, ?_⟩
  have hf : f01 = (3602879701896397 : ℚ) / 36028797018963968 := by
    unfold f01
    rw [Rat.mk'_eq_divInt, Rat.divInt_eq_div]
    norm_num
  rw [hf, Int.ceil_eq_iff]
  norm_num

/-- C7 amended: with the earlier validation checks passing, a positive
batch_size fails _validate_args with the batch-size error exactly when it
exceeds the program's bound math.ceil(len(decisions) * test_size) computed
in binary64 arithmetic — a bound that can fall below the exact
ceil(N * test_size) at representation boundaries; a positive batch_size at
or below the float bound passes validation with no error. -/
theorem c7_batch_size_float_validation (bandits : List BanditSpec)
    (decisions : List Int) (rewards : List ℚ) (contexts : Option (List (List ℚ)))
    (f : ℚ) (b : Nat)
    (hB : bandits.all (fun x => x.isMabInstance) = true)
    (hC : ∀ cs, contexts = some cs → cs.length = decisions.length)
    (hR : rewards.length = decisions.length)
    (hb : 0 < b) :
    (floatCeilBound decisions.length f < b →
        validateArgs bandits decisions rewards contexts f b
          = Except.error SimError.batchTooLarge) ∧
    (b ≤ floatCeilBound decisions.length f →
        validateArgs bandits decisions rewards contexts f b = Except.ok ()) := by
  constructor
  · intro hgt
    cases contexts with
    | none =>
      simp [validateArgs, hB, hR, hb, not_le.mpr hgt]
      rfl
    | some cs =>
      simp [validateArgs, hB, hR, hb, hC cs rfl, not_le.mpr hgt]
      rfl
  · intro hle
    cases contexts with
    | none =>
      simp [validateArgs, hB, hR, hb, hle]
      rfl
    | some cs =>
      simp [validateArgs, hB, hR, hb, hC cs rfl, hle]
      rfl

/-- Witness for C6 at the spec's worked example: arms including 1 and 2,
decisions [1, 1, 2, 1], rewards [20, 17, 25, 9]; arm 1 occurs three times
with reward sum 46. -/
theorem c6_get_arm_stats_witness :
    (1 : Int) ∈ ([1, 2] : List Int) ∧
    ([1, 1, 2, 1] : List Int).length = ([20, 17, 25, 9] : List ℚ).length ∧
    (((1 : Int), armStatsOf [1, 1, 2, 1] [20, 17, 25, 9] 1)
        ∈ getArmStats [1, 2] [1, 1, 2, 1] [20, 17, 25, 9] ∧
    (armStatsOf [1, 1, 2, 1] [20, 17, 25, 9] 1).count
        = (([1, 1, 2, 1] : List Int).filter (fun d => d == 1)).length ∧
    (armStatsOf [1, 1, 2, 1] [20, 17, 25, 9] 1).sum
        = (selectedRewards [1, 1, 2, 1] [20, 17, 25, 9] 1).sum ∧
    ((([1, 1, 2, 1] : List Int).filter (fun d => d == 1)).length = 0 →
        armStatsOf [1, 1, 2, 1] [20, 17, 25, 9] 1 = zeroStats)) :=
  ⟨by decide, by decide,
    c6_get_arm_stats [1, 2] [1, 1, 2, 1] [20, 17, 25, 9] 1 (by decide) (by decide)⟩

/-- Witness for C7's amended theorem at four decisions, test fraction 1/2
and batch size 2. -/
theorem c7_batch_size_float_validation_witness :
    (([⟨"a", true⟩] : List BanditSpec).all (fun x => x.isMabInstance) = true) ∧
    (([20, 17, 25, 9] : List ℚ).length = ([1, 1, 2, 1] : List Int).length) ∧
    (0 < 2) ∧
    ((floatCeilBound ([1, 1, 2, 1] : List Int).length (1 / 2) < 2 →
        validateArgs [⟨"a", true⟩] [1, 1, 2, 1] [20, 17, 25, 9] none (1 / 2) 2
          = Except.error SimError.batchTooLarge) ∧
    (2 ≤ floatCeilBound ([1, 1, 2, 1] : List Int).length (1 / 2) →
        validateArgs [⟨"a", true⟩] [1, 1, 2, 1] [20, 17, 25, 9] none (1 / 2) 2
          = Except.ok ())) :=
  ⟨by decide, by decide, by decide,
    c7_batch_size_float_validation [⟨"a", true⟩] [1, 1, 2, 1] [20, 17, 25, 9] none (1 / 2) 2
      (by decide) (fun cs h => by cases h) (by decide) (by decide)⟩

theorem usesShared_of_not_contextual {k : PKind} (h : k.isContextual = false) :
    k.usesSharedDistances = false := by
  cases k <;> simp [PKind.usesSharedDistances, PKind.isContextual] at h ⊢

theorem runChunkBandits_actions (online : Bool) (batchCtxs ctxs : List (List ℚ))
    (nRows : Nat) :
    ∀ (pairs : List (Policy × Nat)) (cache : Option (List ℚ)),
    (runChunkBandits online batchCtxs ctxs nRows cache pairs).actions
      = expectedCacheActions cache.isSome (pairs.map (fun ps => ps.1.kind)) := by
  intro pairs
  induction pairs with
  | nil =>
    intro cache
    simp [runChunkBandits, expectedCacheActions]
  | cons ps rest ih =>
    intro cache
    obtain ⟨p, s⟩ := ps
    cases h1 : p.kind.isContextual with
    | true =>
      cases h2 : p.kind.usesSharedDistances with
      | true =>
        cases cache with
        | none => simp [runChunkBandits, expectedCacheActions, h1, h2, ih]
        | some d0 => simp [runChunkBandits, expectedCacheActions, h1, h2, ih]
      | false =>
        cases cache with
        | none => simp [runChunkBandits, expectedCacheActions, h1, h2, ih]
        | some d0 => simp [runChunkBandits, expectedCacheActions, h1, h2, ih]
    | false =>
      have h2 := usesShared_of_not_contextual h1
      cases cache with
      | none => simp [runChunkBandits, expectedCacheActions, h1, h2, ih]
      | some d0 => simp [runChunkBandits, expectedCacheActions, h1, h2, ih]

theorem runChunkBandits_states_length (online : Bool) (batchCtxs ctxs : List (List ℚ))
    (nRows : Nat) :
    ∀ (pairs : List (Policy × Nat)) (cache : Option (List ℚ)),
    (runChunkBandits online batchCtxs ctxs nRows cache pairs).states.length
      = pairs.length := by
  intro pairs
  induction pairs with
  | nil =>
    intro cache
    simp [runChunkBandits]
  | cons ps rest ih =>
    intro cache
    obtain ⟨p, s⟩ := ps
    cases h1 : p.kind.isContextual with
    | true =>
      cases h2 : p.kind.usesSharedDistances with
      | true =>
        cases cache with
        | none => simp [runChunkBandits, h1, h2, ih]
        | some d0 => simp [runChunkBandits, h1, h2, ih]
      | false => simp [runChunkBandits, h1, h2, ih]
    | false =>
      simp [runChunkBandits, h1, ih]

theorem expectedCacheActions_count_seen (kinds : List PKind) :
    List.count CacheAction.computed (expectedCacheActions true kinds) = 0 := by
  induction kinds with
  | nil => simp [expectedCacheActions]
  | cons k rest ih =>
    cases h : k.usesSharedDistances <;>
      simp [expectedCacheActions, h, ih, List.count_cons]

theorem expectedCacheActions_count (kinds : List PKind) :
    List.count CacheAction.computed (expectedCacheActions false kinds) ≤ 1 := by
  induction kinds with
  | nil => simp [expectedCacheActions]
  | cons k rest ih =>
    cases h : k.usesSharedDistances <;>
      simp [expectedCacheActions, h, ih, List.count_cons, expectedCacheActions_count_seen]

theorem map_kind_zip (bandits : List Policy) (states : List Nat)
    (h : bandits.length ≤ states.length) :
    (bandits.zip states).map (fun ps => ps.1.kind) = bandits.map Policy.kind := by
  have : (bandits.zip states).map (fun ps => ps.1.kind)
      = ((bandits.zip states).map Prod.fst).map Policy.kind := by
    rw [List.map_map]
    rfl
  rw [this, List.map_fst_zip bandits states h]

theorem offline_fold_cache_inv (isQuick : Bool) (bandits : List Policy)
    (td : List Int) (tc : List (List ℚ)) (chunkSize : Nat) :
    ∀ (idxs : List Nat) (st : OfflineState),
    st.states.length = bandits.length →
    (∀ acts ∈ st.cacheActs,
        acts = expectedCacheActions false (bandits.map Policy.kind)) →
    ((idxs.foldl (offlineChunkStep isQuick bandits td tc chunkSize) st).states.length
        = bandits.length ∧
      ∀ acts ∈ (idxs.foldl (offlineChunkStep isQuick bandits td tc chunkSize) st).cacheActs,
        acts = expectedCacheActions false (bandits.map Policy.kind)) := by
  intro idxs
  induction idxs with
  | nil =>
    intro st h1 h2
    exact ⟨h1, h2⟩
  | cons i rest ih =>
    intro st h1 h2
    simp only [List.foldl_cons]
    apply ih
    · simp only [offlineChunkStep]
      rw [runChunkBandits_states_length]
      simp [h1]
    · intro acts hacts
      simp only [offlineChunkStep, List.mem_append, List.mem_singleton] at hacts
      rcases hacts with hold | hnew
      · exact h2 acts hold
      · rw [hnew, runChunkBandits_actions]
        simp only [Option.isSome_none]
        rw [map_kind_zip bandits st.states (le_of_eq h1.symm)]

/-- C4 amended: within a chunk the context-to-history distances are computed
by at most one policy — the first radius or k-nearest simulator in
evaluation order; each later radius/k-nearest simulator receives the cached
distances via set_distances; every other policy (including the
approximate-hash _LSHSimulator, which the spec counts as neighbor-based but
which bypasses the cache) leaves the cache untouched; and since the cache is
reset to None at the start of every chunk, every chunk of the offline run
exhibits exactly this action pattern. -/
theorem c4_first_radius_knearest_computes (online : Bool)
    (batchCtxs ctxs : List (List ℚ)) (nRows : Nat) (pairs : List (Policy × Nat))
    (isQuick : Bool) (bandits : List Policy) (td : List Int) (tc : List (List ℚ))
    (chunkSize : Nat) (states0 : List Nat) (hs : states0.length = bandits.length) :
    ((runChunkBandits online batchCtxs ctxs nRows none pairs).actions
        = expectedCacheActions false (pairs.map (fun ps => ps.1.kind))) ∧
    (List.count CacheAction.computed
        (expectedCacheActions false (pairs.map (fun ps => ps.1.kind))) ≤ 1) ∧
    (∀ acts ∈ (offlineRun isQuick bandits td tc chunkSize states0).cacheActs,
        acts = expectedCacheActions false (bandits.map Policy.kind)) := by
  refine ⟨?_, expectedCacheActions_count _, ?_⟩
  · rw [runChunkBandits_actions]
    rfl
  · intro acts hacts
    have := offline_fold_cache_inv isQuick bandits td tc chunkSize
      (List.range (ceilDiv td.length chunkSize))
      (initOfflineState bandits states0)
      (by simp [initOfflineState, hs])
      (by simp [initOfflineState])
    exact this.2 acts hacts

/-- Witness for C4's amended theorem at a chunk evaluating a radius and a
k-nearest simulator after an LSH simulator: the radius simulator (first
radius/k-nearest) computes, the k-nearest simulator receives the cache, the
LSH simulator leaves it untouched. -/
theorem c4_first_radius_knearest_computes_witness :
    (([0] : List Nat).length = ([constPolicy .radiusSim] : List Policy).length) ∧
    ((runChunkBandits false [] [[0]] 1 none
        [(constPolicy .lshSim, 0), (constPolicy .radiusSim, 0),
          (constPolicy .knearestSim, 0)]).actions
        = expectedCacheActions false
            (([(constPolicy .lshSim, 0), (constPolicy .radiusSim, 0),
              (constPolicy .knearestSim, 0)] : List (Policy × Nat)).map
              (fun ps => ps.1.kind)) ∧
      (List.count CacheAction.computed
          (expectedCacheActions false
            (([(constPolicy .lshSim, 0), (constPolicy .radiusSim, 0),
              (constPolicy .knearestSim, 0)] : List (Policy × Nat)).map
              (fun ps => ps.1.kind))) ≤ 1) ∧
      (∀ acts ∈ (offlineRun false [constPolicy .radiusSim] [1, 2] [[1], [2]] 1
          [0]).cacheActs,
        acts = expectedCacheActions false
          (([constPolicy .radiusSim] : List Policy).map Policy.kind))) :=
  ⟨rfl,
    c4_first_radius_knearest_computes false [] [[0]] 1
      [(constPolicy .lshSim, 0), (constPolicy .radiusSim, 0), (constPolicy .knearestSim, 0)]
      false [constPolicy .radiusSim] [1, 2] [[1], [2]] 1 [0] rfl⟩

theorem zipWith_keep_snd {α β : Type} :
    ∀ (l1 : List α) (l2 : List β), l2.length ≤ l1.length →
    List.zipWith (fun _ b => b) l1 l2 = l2 := by
  intro l1
  induction l1 with
  | nil =>
    intro l2 h
    simp at h
    simp [h]
  | cons a l1' ih =>
    intro l2 h
    cases l2 with
    | nil => simp
    | cons b l2' =>
      simp only [List.zipWith_cons_cons, List.cons.injEq, true_and]
      exact ih l2' (by simpa using h)

theorem offline_fold_quick_inv (bandits : List Policy) (td : List Int)
    (tc : List (List ℚ)) (chunkSize : Nat) :
    ∀ (idxs : List Nat) (st : OfflineState),
    st.states.length = bandits.length →
    st.nbhdStats = bandits.map (fun _ => none) →
    ((idxs.foldl (offlineChunkStep true bandits td tc chunkSize) st).states.length
        = bandits.length ∧
      (idxs.foldl (offlineChunkStep true bandits td tc chunkSize) st).nbhdStats
        = bandits.map (fun _ => none)) := by
  intro idxs
  induction idxs with
  | nil =>
    intro st h1 h2
    exact ⟨h1, h2⟩
  | cons i rest ih =>
    intro st h1 h2
    simp only [List.foldl_cons]
    apply ih
    · simp only [offlineChunkStep]
      rw [runChunkBandits_states_length]
      simp [h1]
    · simp only [offlineChunkStep]
      have hcond : ∀ (ps : Policy × Nat) (old : Option Int),
          (if ps.1.kind.isNeighborsSimulator ∧ true = false
            then some (ps.1.nbhdStatsSnap ps.2) else old) = old := by
        intro ps old
        simp
      simp only [hcond]
      rw [zipWith_keep_snd]
      · exact h2
      · rw [h2, List.length_zip, runChunkBandits_states_length]
        simp [h1]

theorem online_chunk_fold_states_length (bandits : List Policy)
    (batchCtxs : List (List ℚ)) (batchDecisions : List Int)
    (batchSize chunkSize : Nat) :
    ∀ (js : List Nat) (acc : OnlineBatchAcc),
    acc.states.length = bandits.length →
    (js.foldl (onlineChunkIter bandits batchCtxs batchDecisions batchSize chunkSize)
        acc).states.length = bandits.length := by
  intro js
  induction js with
  | nil =>
    intro acc h
    exact h
  | cons j rest ih =>
    intro acc h
    simp only [List.foldl_cons]
    apply ih
    simp only [onlineChunkIter]
    rw [runChunkBandits_states_length]
    simp [h]

theorem online_batch_states_length (isQuick : Bool) (bandits : List Policy)
    (td : List Int) (tr : List ℚ) (tc : List (List ℚ)) (batchSize chunkSize : Nat)
    (st : OnlineState) (i : Nat) (h : st.states.length = bandits.length) :
    (onlineBatchStep isQuick bandits td tr tc batchSize chunkSize st i).states.length
      = bandits.length := by
  simp only [onlineBatchStep, List.length_map, List.length_zip]
  rw [online_chunk_fold_states_length]
  · simp
  · exact h

theorem online_fold_quick_inv (bandits : List Policy) (td : List Int) (tr : List ℚ)
    (tc : List (List ℚ)) (batchSize chunkSize : Nat) :
    ∀ (idxs : List Nat) (st : OnlineState),
    st.states.length = bandits.length →
    st.nbhdSize = bandits.map (fun _ => none) →
    st.nbhdStats = bandits.map (fun _ => none) →
    ((idxs.foldl (onlineBatchStep true bandits td tr tc batchSize chunkSize) st).states.length
        = bandits.length ∧
      (idxs.foldl (onlineBatchStep true bandits td tr tc batchSize chunkSize) st).nbhdSize
        = bandits.map (fun _ => none) ∧
      (idxs.foldl (onlineBatchStep true bandits td tr tc batchSize chunkSize) st).nbhdStats
        = bandits.map (fun _ => none)) := by
  intro idxs
  induction idxs with
  | nil =>
    intro st h1 h2 h3
    exact ⟨h1, h2, h3⟩
  | cons i rest ih =>
    intro st h1 h2 h3
    simp only [List.foldl_cons]
    have hzlen : (bandits.zip ((List.range (ceilDiv batchSize chunkSize)).foldl
        (onlineChunkIter bandits (pySlice tc (i * batchSize)
          (min (i * batchSize + batchSize) (td.length + 1)))
          (pySlice td (i * batchSize) (min (i * batchSize + batchSize) (td.length + 1)))
          batchSize chunkSize)
        ⟨0, st.states, bandits.map (fun _ => []), bandits.map (fun _ => [])⟩).states).length
        = bandits.length := by
      rw [List.length_zip, online_chunk_fold_states_length]
      · simp
      · exact h1
    apply ih
    · exact online_batch_states_length true bandits td tr tc batchSize chunkSize st i h1
    · simp only [onlineBatchStep]
      have hcond : ∀ (ps : Policy × Nat) (old : Option Int),
          (if (ps.1.kind = PKind.radiusSim ∨ ps.1.kind = PKind.lshSim) ∧ true = false
            then some (ps.1.nbhdSizesSnap ps.2) else old) = old := by
        intro ps old
        simp
      simp only [hcond]
      rw [zipWith_keep_snd]
      · exact h2
      · rw [h2]
        simpa using le_of_eq hzlen.symm
    · simp only [onlineBatchStep]
      have hcond : ∀ (ps : Policy × Nat) (old : Option Int),
          (if ps.1.kind.isNeighborsSimulator ∧ true = false
            then some (ps.1.nbhdStatsSnap ps.2) else old) = old := by
        intro ps old
        simp
      simp only [hcond]
      rw [zipWith_keep_snd]
      · exact h3
      · rw [h3]
        simpa using le_of_eq hzlen.symm

theorem map_const_of_length {α β γ : Type} (c : γ) :
    ∀ (l1 : List α) (l2 : List β), l1.length = l2.length →
    l1.map (fun _ => c) = l2.map (fun _ => c) := by
  intro l1
  induction l1 with
  | nil =>
    intro l2 h
    cases l2 with
    | nil => rfl
    | cons b t2 => simp at h
  | cons a t ih =>
    intro l2 h
    cases l2 with
    | nil => simp at h
    | cons b t2 =>
      simp only [List.map_cons, List.cons.injEq, true_and]
      exact ih t2 (by simpa using h)

/-- C9: _train_bandits replaces every bandit whose underlying implementation
is _Radius, _KNearest or _LSHNearest by the corresponding
simulation-instrumented _NeighborsSimulator wrapper (which receives the
is_quick flag), leaving other bandits as they are; and in a quick run
(is_quick = true) every write to bandit_to_neighborhood_size and
bandit_to_arm_to_stats_neighborhoods is skipped, so both tables keep their
initial unpopulated value for every policy, in offline and online mode
alike. -/
theorem c9_neighbor_wrapping_and_quick_run (imps : List ImpKind)
    (bandits : List Policy) (td : List Int) (tr : List ℚ) (tc : List (List ℚ))
    (batchSize chunkSize : Nat) (states0 : List Nat)
    (hs : states0.length = bandits.length) :
    (trainBanditsKinds imps = imps.map wrapImp) ∧
    (∀ k ∈ imps, (k = ImpKind.radius ∨ k = ImpKind.knearest ∨ k = ImpKind.lshNearest) →
        (wrapImp k).isNeighborsSimulator = true) ∧
    ((offlineRun true bandits td tc chunkSize states0).nbhdSize
        = bandits.map (fun _ => none)) ∧
    ((offlineRun true bandits td tc chunkSize states0).nbhdStats
        = bandits.map (fun _ => none)) ∧
    ((onlineRun true bandits td tr tc batchSize chunkSize states0).nbhdSize
        = bandits.map (fun _ => none)) ∧
    ((onlineRun true bandits td tr tc batchSize chunkSize states0).nbhdStats
        = bandits.map (fun _ => none)) := by
  have hoff := offline_fold_quick_inv bandits td tc chunkSize
    (List.range (ceilDiv td.length chunkSize)) (initOfflineState bandits states0)
    (by simp [initOfflineState, hs]) (by simp [initOfflineState])
  have hon := online_fold_quick_inv bandits td tr tc batchSize chunkSize
    (List.range (ceilDiv td.length batchSize)) (initOnlineState bandits states0)
    (by simp [initOnlineState, hs]) (by simp [initOnlineState])
    (by simp [initOnlineState])
  have hoffp : (offlineChunkPhase true bandits td tc chunkSize states0).states.length
        = bandits.length ∧
      (offlineChunkPhase true bandits td tc chunkSize states0).nbhdStats
        = bandits.map (fun _ => none) := hoff
  refine ⟨?_, ?_, ?_, ?_, ?_, ?_⟩
  · induction imps with
    | nil => rfl
    | cons k r ih => simp only [trainBanditsKinds, List.map_cons, ih]
  · intro k hk hcase
    rcases hcase with h | h | h <;> subst h <;> rfl
  · simp only [offlineRun]
    have hcond : ∀ (ps : Policy × Nat),
        (if ps.1.kind.isNeighborsSimulator ∧ true = false
          then some (ps.1.nbhdSizesSnap ps.2) else none) = (none : Option Int) := by
      intro ps
      simp
    simp only [hcond]
    apply map_const_of_length
    rw [List.length_zip, hoffp.1]
    simp
  · simp only [offlineRun]
    exact hoffp.2
  · simp only [onlineRun]
    have hcond : ∀ (ps : Policy × Nat) (old : Option Int),
        (if ps.1.kind.isNeighborsSimulator ∧ true = false
          then some (ps.1.nbhdSizesSnap ps.2) else old) = old := by
      intro ps old
      simp
    simp only [hcond]
    rw [zipWith_keep_snd]
    · exact hon.2.1
    · rw [hon.2.1, List.length_zip, hon.1]
      simp
  · simp only [onlineRun]
    have hcond : ∀ (ps : Policy × Nat) (old : Option Int),
        (if ps.1.kind.isNeighborsSimulator ∧ true = false
          then some (ps.1.nbhdStatsSnap ps.2) else old) = old := by
      intro ps old
      simp
    simp only [hcond]
    rw [zipWith_keep_snd]
    · exact hon.2.2
    · rw [hon.2.2, List.length_zip, hon.1]
      simp

/-- Witness for C9 at one radius bandit, one test row, and a quick run. -/
theorem c9_neighbor_wrapping_and_quick_run_witness :
    (([0] : List Nat).length = ([constPolicy .radiusSim] : List Policy).length) ∧
    ((trainBanditsKinds [ImpKind.radius] = [ImpKind.radius].map wrapImp) ∧
    (∀ k ∈ [ImpKind.radius],
        (k = ImpKind.radius ∨ k = ImpKind.knearest ∨ k = ImpKind.lshNearest) →
        (wrapImp k).isNeighborsSimulator = true) ∧
    ((offlineRun true [constPolicy .radiusSim] [1] [[1]] 1 [0]).nbhdSize
        = ([constPolicy .radiusSim] : List Policy).map (fun _ => none)) ∧
    ((offlineRun true [constPolicy .radiusSim] [1] [[1]] 1 [0]).nbhdStats
        = ([constPolicy .radiusSim] : List Policy).map (fun _ => none)) ∧
    ((onlineRun true [constPolicy .radiusSim] [1] [1] [[1]] 1 1 [0]).nbhdSize
        = ([constPolicy .radiusSim] : List Policy).map (fun _ => none)) ∧
    ((onlineRun true [constPolicy .radiusSim] [1] [1] [[1]] 1 1 [0]).nbhdStats
        = ([constPolicy .radiusSim] : List Policy).map (fun _ => none))) :=
  ⟨rfl,
    c9_neighbor_wrapping_and_quick_run [ImpKind.radius] [constPolicy .radiusSim]
      [1] [1] [[1]] 1 1 [0] rfl⟩

theorem runChunkBandits_exps_contextFree (batchCtxs ctxs : List (List ℚ)) (nRows : Nat) :
    ∀ (pairs : List (Policy × Nat)) (cache : Option (List ℚ)) (b : Nat) (p : Policy)
      (s : Nat),
    pairs[b]? = some (p, s) → p.kind.isContextual = false →
    (runChunkBandits false batchCtxs ctxs nRows cache pairs).exps[b]? = some [] := by
  intro pairs
  induction pairs with
  | nil =>
    intro cache b p s hb hk
    simp at hb
  | cons ps rest ih =>
    intro cache b p s hb hk
    obtain ⟨q, t⟩ := ps
    cases b with
    | zero =>
      simp only [List.getElem?_cons_zero, Option.some.injEq] at hb
      have hq : q = p := congrArg Prod.fst hb
      subst hq
      have hq2 := usesShared_of_not_contextual hk
      simp [runChunkBandits, hk, hq2]
    | succ b' =>
      simp only [List.getElem?_cons_succ] at hb
      cases h1 : q.kind.isContextual with
      | true =>
        cases h2 : q.kind.usesSharedDistances with
        | true =>
          cases cache with
          | none => simpa [runChunkBandits, h1, h2] using ih _ b' p s hb hk
          | some d0 => simpa [runChunkBandits, h1, h2] using ih _ b' p s hb hk
        | false => simpa [runChunkBandits, h1, h2] using ih cache b' p s hb hk
      | false =>
        simpa [runChunkBandits, h1] using ih cache b' p s hb hk

theorem offline_fold_cf_exps (isQuick : Bool) (bandits : List Policy) (td : List Int)
    (tc : List (List ℚ)) (chunkSize : Nat) (b : Nat) (p : Policy)
    (hb : bandits[b]? = some p) (hk : p.kind.isContextual = false) :
    ∀ (idxs : List Nat) (st : OfflineState),
    st.states.length = bandits.length →
    st.exps[b]? = some [] →
    ((idxs.foldl (offlineChunkStep isQuick bandits td tc chunkSize) st).states.length
        = bandits.length ∧
      (idxs.foldl (offlineChunkStep isQuick bandits td tc chunkSize) st).exps[b]?
        = some []) := by
  intro idxs
  induction idxs with
  | nil =>
    intro st h1 h2
    exact ⟨h1, h2⟩
  | cons i rest ih =>
    intro st h1 h2
    simp only [List.foldl_cons]
    have hblt : b < bandits.length := (List.getElem?_eq_some_iff.mp hb).1
    have hblt2 : b < st.states.length := by omega
    have hstate : st.states[b]? = some st.states[b] := List.getElem?_eq_getElem hblt2
    apply ih
    · simp only [offlineChunkStep]
      rw [runChunkBandits_states_length]
      simp [h1]
    · simp only [offlineChunkStep]
      rw [List.getElem?_zipWith]
      rw [h2]
      rw [runChunkBandits_exps_contextFree _ _ _ _ _ b p _ ?hpair hk]
      · rfl
      case hpair =>
        rw [List.getElem?_zip_eq_some]
        exact ⟨hb, hstate⟩

/-- C10: in offline mode a context-free policy's bandit_to_expectations
entry is never appended to during the chunked replay loop (it stays the
initial empty list), and the final per-bandit loop overwrites it with the
policy's single arm-to-expectation mapping taken after all chunks are
processed — one dictionary, not a per-row sequence. -/
theorem c10_offline_context_free_expectations (isQuick : Bool) (bandits : List Policy)
    (td : List Int) (tc : List (List ℚ)) (chunkSize : Nat) (states0 : List Nat)
    (hs : states0.length = bandits.length) (b : Nat) (p : Policy)
    (hb : bandits[b]? = some p) (hk : p.kind.isContextual = false) :
    ∃ s : Nat,
      (offlineChunkPhase isQuick bandits td tc chunkSize states0).states[b]? = some s ∧
      (offlineChunkPhase isQuick bandits td tc chunkSize states0).exps[b]? = some [] ∧
      (offlineRun isQuick bandits td tc chunkSize states0).exps[b]?
        = some (ExpEntry.single (p.armExp s)) := by
  have hblt : b < bandits.length := (List.getElem?_eq_some_iff.mp hb).1
  have hinit2 : (initOfflineState bandits states0).exps[b]? = some [] := by
    simp only [initOfflineState]
    rw [List.getElem?_map, List.getElem?_eq_getElem hblt]
    rfl
  have hinv := offline_fold_cf_exps isQuick bandits td tc chunkSize b p hb hk
    (List.range (ceilDiv td.length chunkSize)) (initOfflineState bandits states0)
    (by simp [initOfflineState, hs]) hinit2
  have hinvp : (offlineChunkPhase isQuick bandits td tc chunkSize states0).states.length
        = bandits.length ∧
      (offlineChunkPhase isQuick bandits td tc chunkSize states0).exps[b]? = some [] :=
    hinv
  have hslt : b < (offlineChunkPhase isQuick bandits td tc chunkSize states0).states.length := by
    rw [hinvp.1]
    exact hblt
  refine ⟨(offlineChunkPhase isQuick bandits td tc chunkSize states0).states[b], ?_, hinvp.2, ?_⟩
  · exact List.getElem?_eq_getElem hslt
  · have hzip : (bandits.zip
        (offlineChunkPhase isQuick bandits td tc chunkSize states0).states)[b]?
        = some (p, (offlineChunkPhase isQuick bandits td tc chunkSize states0).states[b]) :=
      List.getElem?_zip_eq_some.mpr ⟨hb, List.getElem?_eq_getElem hslt⟩
    simp only [offlineRun]
    rw [List.getElem?_zipWith]
    rw [hzip, hinvp.2]
    simp [hk]

/-- Witness for C10 at one context-free bandit and three test rows split
into chunks of two. -/
theorem c10_offline_context_free_expectations_witness :
    (([0] : List Nat).length = ([constPolicy .contextFree] : List Policy).length) ∧
    (([constPolicy .contextFree] : List Policy)[0]? = some (constPolicy .contextFree)) ∧
    ((constPolicy .contextFree).kind.isContextual = false) ∧
    (∃ s : Nat,
      (offlineChunkPhase false [constPolicy .contextFree] [1, 2, 3] [[1], [2], [3]] 2
          [0]).states[0]? = some s ∧
      (offlineChunkPhase false [constPolicy .contextFree] [1, 2, 3] [[1], [2], [3]] 2
          [0]).exps[0]? = some [] ∧
      (offlineRun false [constPolicy .contextFree] [1, 2, 3] [[1], [2], [3]] 2
          [0]).exps[0]?
        = some (ExpEntry.single ((constPolicy .contextFree).armExp s))) :=
  ⟨rfl, rfl, rfl,
    c10_offline_context_free_expectations false [constPolicy .contextFree]
      [1, 2, 3] [[1], [2], [3]] 2 [0] rfl 0 (constPolicy .contextFree) rfl rfl⟩

/-- The checkpoint events one online batch generates: for each bandit in
list order, its batch-i evaluation immediately followed by its batch-i
partial_fit. -/
def batchEvents (nB i : Nat) : List REvent :=
  (List.range nB).flatMap (fun b => [REvent.eval b i, REvent.update b i])

theorem onlineBatchStep_trace (isQuick : Bool) (bandits : List Policy) (td : List Int)
    (tr : List ℚ) (tc : List (List ℚ)) (batchSize chunkSize : Nat) (st : OnlineState)
    (i : Nat) :
    (onlineBatchStep isQuick bandits td tr tc batchSize chunkSize st i).trace
      = st.trace ++ batchEvents bandits.length i := rfl

theorem online_fold_trace (isQuick : Bool) (bandits : List Policy) (td : List Int)
    (tr : List ℚ) (tc : List (List ℚ)) (batchSize chunkSize : Nat) :
    ∀ (idxs : List Nat) (st : OnlineState),
    (idxs.foldl (onlineBatchStep isQuick bandits td tr tc batchSize chunkSize) st).trace
      = st.trace ++ idxs.flatMap (fun i => batchEvents bandits.length i) := by
  intro idxs
  induction idxs with
  | nil =>
    intro st
    simp
  | cons i rest ih =>
    intro st
    simp only [List.foldl_cons, List.flatMap_cons]
    rw [ih, onlineBatchStep_trace, List.append_assoc]

/-- C3: in online mode, for every batch index i and every bandit, the batch-i
evaluation (confusion matrix and min/mean/max snapshots keyed by i) is
recorded immediately before that bandit's partial_fit with batch i's data —
the two events form a contiguous infix of the checkpoint trace in that
order; and the trace ends with exactly one "total" evaluation per bandit
(the extra confusion matrix over the full test set and the "total" snapshots
over the whole accumulated prediction history), after every batch-level
event. -/
theorem c3_online_eval_before_update (isQuick : Bool) (bandits : List Policy)
    (td : List Int) (tr : List ℚ) (tc : List (List ℚ)) (batchSize chunkSize : Nat)
    (states0 : List Nat) (b i : Nat) (hb : b < bandits.length)
    (hi : i < ceilDiv td.length batchSize) :
    ([REvent.eval b i, REvent.update b i] <:+:
        (onlineRun isQuick bandits td tr tc batchSize chunkSize states0).trace) ∧
    (∃ pre,
      (onlineRun isQuick bandits td tr tc batchSize chunkSize states0).trace
        = pre ++ (List.range bandits.length).map REvent.evalTotal ∧
      ∀ e ∈ pre, ∀ b2, e ≠ REvent.evalTotal b2) := by
  have htrace : (onlineRun isQuick bandits td tr tc batchSize chunkSize states0).trace
      = (List.range (ceilDiv td.length batchSize)).flatMap
          (fun j => batchEvents bandits.length j)
        ++ (List.range bandits.length).map REvent.evalTotal := by
    simp only [onlineRun]
    rw [online_fold_trace]
    simp [initOnlineState]
  constructor
  · have h1 : [REvent.eval b i, REvent.update b i] <:+: batchEvents bandits.length i := by
      rw [batchEvents, List.flatMap_def]
      exact List.infix_of_mem_flatten
        (List.mem_map.mpr ⟨b, List.mem_range.mpr hb, rfl⟩)
    have h2 : batchEvents bandits.length i <:+:
        (List.range (ceilDiv td.length batchSize)).flatMap
          (fun j => batchEvents bandits.length j) := by
      rw [List.flatMap_def]
      exact List.infix_of_mem_flatten
        (List.mem_map.mpr ⟨i, List.mem_range.mpr hi, rfl⟩)
    rw [htrace]
    exact (h1.trans h2).trans
      (List.prefix_append _ _).isInfix
  · refine ⟨(List.range (ceilDiv td.length batchSize)).flatMap
      (fun j => batchEvents bandits.length j), htrace, ?_⟩
    intro e he b2
    rw [List.mem_flatMap] at he
    obtain ⟨j, _, hej⟩ := he
    rw [batchEvents, List.mem_flatMap] at hej
    obtain ⟨b3, _, heb⟩ := hej
    simp only [List.mem_cons, List.mem_singleton] at heb
    rcases heb with h | h | h
    · subst h
      simp
    · subst h
      simp
    · simp at h

/-- Witness for C3 at one echo bandit, three test rows, batch size 2 (two
batches) and chunk size 5. -/
theorem c3_online_eval_before_update_witness :
    (0 < ([echoPolicy] : List Policy).length) ∧
    (1 < ceilDiv ([1, 2, 3] : List Int).length 2) ∧
    (([REvent.eval 0 1, REvent.update 0 1] <:+:
        (onlineRun false [echoPolicy] [1, 2, 3] [1, 1, 1] [[1], [2], [3]] 2 5
          [0]).trace) ∧
    (∃ pre,
      (onlineRun false [echoPolicy] [1, 2, 3] [1, 1, 1] [[1], [2], [3]] 2 5 [0]).trace
        = pre ++ (List.range ([echoPolicy] : List Policy).length).map REvent.evalTotal ∧
      ∀ e ∈ pre, ∀ b2, e ≠ REvent.evalTotal b2)) :=
  ⟨by decide, by decide,
    c3_online_eval_before_update false [echoPolicy] [1, 2, 3] [1, 1, 1]
      [[1], [2], [3]] 2 5 [0] 0 1 (by decide) (by decide)⟩

/-! ## Offline chunking refinement

The offline chunk loop advances correctly, and the following development
shows that its concatenated predictions equal those of a single non-chunked
pass over the whole test set — including for radius/k-nearest simulators fed
from the shared per-chunk distance cache.  This supports the positive half
of C2: the equivalence the claim demands does hold for the loop that tiles
its chunks, and fails online only because of the chunk_start slip. -/

theorem predictCtxChunk_append (p : Policy) :
    ∀ (c1 : List (List ℚ)) (d1 : List ℚ) (s : Nat) (d2 : List ℚ) (c2 : List (List ℚ)),
    d1.length = c1.length →
    predictCtxChunk p s (d1 ++ d2) (c1 ++ c2)
      = ((predictCtxChunk p s d1 c1).1 ++
          (predictCtxChunk p (predictCtxChunk p s d1 c1).2 d2 c2).1,
        (predictCtxChunk p (predictCtxChunk p s d1 c1).2 d2 c2).2) := by
  intro c1
  induction c1 with
  | nil =>
    intro d1 s d2 c2 h
    have : d1 = [] := List.length_eq_zero.mp (by simpa using h)
    subst this
    simp [predictCtxChunk]
  | cons c cs ih =>
    intro d1 s d2 c2 h
    cases d1 with
    | nil => simp at h
    | cons d ds =>
      simp only [List.cons_append, predictCtxChunk, List.append_eq]
      rw [ih ds _ d2 c2 (by simpa using h)]

theorem predictFreeChunk_add (p : Policy) :
    ∀ (n1 : Nat) (s : Nat) (n2 : Nat),
    predictFreeChunk p s (n1 + n2)
      = ((predictFreeChunk p s n1).1 ++
          (predictFreeChunk p (predictFreeChunk p s n1).2 n2).1,
        (predictFreeChunk p (predictFreeChunk p s n1).2 n2).2) := by
  intro n1
  induction n1 with
  | zero =>
    intro s n2
    simp [predictFreeChunk]
  | succ k ih =>
    intro s n2
    have hadd : k + 1 + n2 = (k + n2) + 1 := by omega
    rw [hadd]
    simp only [predictFreeChunk]
    rw [ih]
    rfl

theorem runChunkBandits_preds_length (online : Bool) (batchCtxs ctxs : List (List ℚ))
    (nRows : Nat) :
    ∀ (pairs : List (Policy × Nat)) (cache : Option (List ℚ)),
    (runChunkBandits online batchCtxs ctxs nRows cache pairs).preds.length
      = pairs.length := by
  intro pairs
  induction pairs with
  | nil =>
    intro cache
    simp [runChunkBandits]
  | cons ps rest ih =>
    intro cache
    obtain ⟨p, s⟩ := ps
    cases h1 : p.kind.isContextual with
    | true =>
      cases h2 : p.kind.usesSharedDistances with
      | true =>
        cases cache with
        | none => simp [runChunkBandits, h1, h2, ih]
        | some d0 => simp [runChunkBandits, h1, h2, ih]
      | false => simp [runChunkBandits, h1, h2, ih]
    | false =>
      simp [runChunkBandits, h1, ih]

theorem runChunkBandits_preds_nil (online : Bool) (batchCtxs : List (List ℚ)) :
    ∀ (pairs : List (Policy × Nat)) (cache : Option (List ℚ)),
    (runChunkBandits online batchCtxs [] 0 cache pairs).preds
      = pairs.map (fun _ => []) := by
  intro pairs
  induction pairs with
  | nil =>
    intro cache
    simp [runChunkBandits]
  | cons ps rest ih =>
    intro cache
    obtain ⟨p, s⟩ := ps
    cases h1 : p.kind.isContextual with
    | true =>
      cases h2 : p.kind.usesSharedDistances with
      | true =>
        cases cache with
        | none => simp [runChunkBandits, h1, h2, ih, predictCtxChunk]
        | some d0 =>
          cases d0 with
          | nil => simp [runChunkBandits, h1, h2, ih, predictCtxChunk]
          | cons d ds => simp [runChunkBandits, h1, h2, ih, predictCtxChunk]
      | false => simp [runChunkBandits, h1, h2, ih, predictCtxChunk]
    | false =>
      simp [runChunkBandits, h1, ih, predictFreeChunk]

theorem zipWith_append_assoc :
    ∀ (A B C : List (List Int)),
    List.zipWith (· ++ ·) (List.zipWith (· ++ ·) A B) C
      = List.zipWith (· ++ ·) A (List.zipWith (· ++ ·) B C) := by
  intro A
  induction A with
  | nil => intro B C; simp
  | cons a A' ih =>
    intro B C
    cases B with
    | nil => simp
    | cons b B' =>
      cases C with
      | nil => simp
      | cons c C' =>
        simp only [List.zipWith_cons_cons, List.append_assoc, List.cons.injEq, true_and]
        exact ih B' C'

theorem zipWith_append_map_nil {α : Type} :
    ∀ (A : List (List Int)) (X : List α), A.length ≤ X.length →
    List.zipWith (· ++ ·) A (X.map (fun _ => [])) = A := by
  intro A
  induction A with
  | nil => intro X h; simp
  | cons a A' ih =>
    intro X h
    cases X with
    | nil => simp at h
    | cons x X' =>
      simp only [List.map_cons, List.zipWith_cons_cons, List.append_nil,
        List.cons.injEq, true_and]
      exact ih X' (by simpa using h)

theorem contextual_of_usesShared {k : PKind} (h : k.usesSharedDistances = true) :
    k.isContextual = true := by
  cases k <;> simp [PKind.usesSharedDistances, PKind.isContextual] at h ⊢

theorem runChunkBandits_cons_free (online : Bool) (bc ctxs : List (List ℚ)) (n : Nat)
    (cache : Option (List ℚ)) (p : Policy) (s : Nat) (rest : List (Policy × Nat))
    (h : p.kind.isContextual = false) :
    runChunkBandits online bc ctxs n cache ((p, s) :: rest)
      = ⟨(predictFreeChunk p s n).1
            :: (runChunkBandits online bc ctxs n cache rest).preds,
          (if online then [p.armExp s] else [])
            :: (runChunkBandits online bc ctxs n cache rest).exps,
          (predictFreeChunk p s n).2
            :: (runChunkBandits online bc ctxs n cache rest).states,
          CacheAction.noTouch
            :: (runChunkBandits online bc ctxs n cache rest).actions⟩ := by
  simp [runChunkBandits, h]

theorem runChunkBandits_cons_ctx (online : Bool) (bc ctxs : List (List ℚ)) (n : Nat)
    (cache : Option (List ℚ)) (p : Policy) (s : Nat) (rest : List (Policy × Nat))
    (h : p.kind.isContextual = true) (h2 : p.kind.usesSharedDistances = false) :
    runChunkBandits online bc ctxs n cache ((p, s) :: rest)
      = ⟨(predictCtxChunk p s (ctxs.map p.distRow) ctxs).1
            :: (runChunkBandits online bc ctxs n cache rest).preds,
          (if p.kind = .lshSim then
              (if online then bc.map (p.expectRow s) else ctxs.map (p.expectRow s))
            else if p.kind = .neighborsPlain ∧ online = false then [p.armExp s]
            else ctxs.map (p.expectRow s))
            :: (runChunkBandits online bc ctxs n cache rest).exps,
          (predictCtxChunk p s (ctxs.map p.distRow) ctxs).2
            :: (runChunkBandits online bc ctxs n cache rest).states,
          CacheAction.noTouch
            :: (runChunkBandits online bc ctxs n cache rest).actions⟩ := by
  simp [runChunkBandits, h, h2]

theorem runChunkBandits_cons_shared_none (online : Bool) (bc ctxs : List (List ℚ))
    (n : Nat) (p : Policy) (s : Nat) (rest : List (Policy × Nat))
    (h2 : p.kind.usesSharedDistances = true) :
    runChunkBandits online bc ctxs n none ((p, s) :: rest)
      = ⟨(predictCtxChunk p s (ctxs.map p.distRow) ctxs).1
            :: (runChunkBandits online bc ctxs n (some (ctxs.map p.distRow)) rest).preds,
          ctxs.map (p.expectRow s)
            :: (runChunkBandits online bc ctxs n (some (ctxs.map p.distRow)) rest).exps,
          (predictCtxChunk p s (ctxs.map p.distRow) ctxs).2
            :: (runChunkBandits online bc ctxs n (some (ctxs.map p.distRow)) rest).states,
          CacheAction.computed
            :: (runChunkBandits online bc ctxs n (some (ctxs.map p.distRow)) rest).actions⟩ := by
  simp [runChunkBandits, contextual_of_usesShared h2, h2]

theorem runChunkBandits_cons_shared_some (online : Bool) (bc ctxs : List (List ℚ))
    (n : Nat) (d0 : List ℚ) (p : Policy) (s : Nat) (rest : List (Policy × Nat))
    (h2 : p.kind.usesSharedDistances = true) :
    runChunkBandits online bc ctxs n (some d0) ((p, s) :: rest)
      = ⟨(predictCtxChunk p s d0 ctxs).1
            :: (runChunkBandits online bc ctxs n (some d0) rest).preds,
          ctxs.map (p.expectRow s)
            :: (runChunkBandits online bc ctxs n (some d0) rest).exps,
          (predictCtxChunk p s d0 ctxs).2
            :: (runChunkBandits online bc ctxs n (some d0) rest).states,
          CacheAction.receivedCache
            :: (runChunkBandits online bc ctxs n (some d0) rest).actions⟩ := by
  simp [runChunkBandits, contextual_of_usesShared h2, h2]

theorem runChunkBandits_split (c1 c2 : List (List ℚ)) (n1 n2 : Nat) :
    ∀ (bandits : List Policy) (states : List Nat) (gOpt : Option (List ℚ → ℚ)),
    ((runChunkBandits false [] (c1 ++ c2) (n1 + n2)
        (gOpt.map (fun g => (c1 ++ c2).map g)) (bandits.zip states)).preds
      = List.zipWith (· ++ ·)
          (runChunkBandits false [] c1 n1 (gOpt.map (fun g => c1.map g))
            (bandits.zip states)).preds
          (runChunkBandits false [] c2 n2 (gOpt.map (fun g => c2.map g))
            (bandits.zip (runChunkBandits false [] c1 n1 (gOpt.map (fun g => c1.map g))
              (bandits.zip states)).states)).preds) ∧
    ((runChunkBandits false [] (c1 ++ c2) (n1 + n2)
        (gOpt.map (fun g => (c1 ++ c2).map g)) (bandits.zip states)).states
      = (runChunkBandits false [] c2 n2 (gOpt.map (fun g => c2.map g))
          (bandits.zip (runChunkBandits false [] c1 n1 (gOpt.map (fun g => c1.map g))
            (bandits.zip states)).states)).states) := by
  intro bandits
  induction bandits with
  | nil =>
    intro states gOpt
    simp [runChunkBandits]
  | cons p bs ih =>
    intro states gOpt
    cases states with
    | nil =>
      simp [runChunkBandits]
    | cons s ss =>
      cases h1c : p.kind.isContextual with
      | false =>
        have hih := ih ss gOpt
        simp only [List.map_append] at hih ⊢
        simp only [List.zip_cons_cons, runChunkBandits_cons_free, h1c,
          List.zipWith_cons_cons, predictFreeChunk_add, List.cons.injEq]
        constructor <;> simp [hih.1, hih.2]
      | true =>
        cases h2c : p.kind.usesSharedDistances with
        | false =>
          have hih := ih ss gOpt
          simp only [List.map_append] at hih ⊢
          simp only [List.zip_cons_cons, runChunkBandits_cons_ctx, h1c, h2c,
            List.map_append, predictCtxChunk_append, List.length_map,
            List.zipWith_cons_cons, List.cons.injEq]
          constructor <;> simp [hih.1, hih.2]
        | true =>
          cases gOpt with
          | none =>
            have hih := ih ss (some p.distRow)
            simp only [Option.map_some', List.map_append] at hih ⊢
            simp only [Option.map_none', List.zip_cons_cons,
              runChunkBandits_cons_shared_none, h2c, List.map_append,
              predictCtxChunk_append, List.length_map, List.zipWith_cons_cons,
              List.cons.injEq]
            constructor <;> simp [hih.1, hih.2]
          | some g =>
            have hih := ih ss (some g)
            simp only [Option.map_some', List.map_append] at hih ⊢
            simp only [List.zip_cons_cons, runChunkBandits_cons_shared_some, h2c,
              List.map_append, predictCtxChunk_append, List.length_map,
              List.zipWith_cons_cons, List.cons.injEq]
            constructor <;> simp [hih.1, hih.2]

theorem ceilDiv_le_iff (len c j : Nat) (hc : 0 < c) :
    ceilDiv len c ≤ j ↔ len ≤ j * c := by
  unfold ceilDiv
  rw [Nat.div_le_iff_le_mul_add_pred hc, Nat.mul_comm c j]
  omega

theorem drop_eq_slice_append {α : Type} (l : List α) (a b : Nat) (hab : a ≤ b)
    (hb : b ≤ l.length) :
    l.drop a = pySlice l a b ++ l.drop b := by
  unfold pySlice
  conv =>
    lhs
    rw [← List.take_append_drop b l]
  rw [List.drop_append_eq_append_drop]
  have hlt : (l.take b).length = b := by
    simp
    omega
  rw [hlt]
  have : a - b = 0 := by omega
  rw [this, List.drop_zero]

theorem zipWith_append_map_nil_left {α : Type} :
    ∀ (A : List (List Int)) (X : List α), A.length ≤ X.length →
    List.zipWith (· ++ ·) (X.map (fun _ => [])) A = A := by
  intro A
  induction A with
  | nil =>
    intro X h
    simp
  | cons a A' ih =>
    intro X h
    cases X with
    | nil => simp at h
    | cons x X' =>
      simp only [List.map_cons, List.zipWith_cons_cons, List.nil_append,
        List.cons.injEq, true_and]
      exact ih X' (by simpa using h)

theorem offline_tail_preds (isQuick : Bool) (bandits : List Policy) (td : List Int)
    (tc : List (List ℚ)) (chunkSize : Nat) (hc : 0 < chunkSize)
    (hlen : tc.length = td.length) :
    ∀ (k j : Nat) (st : OfflineState),
    j + k = ceilDiv td.length chunkSize →
    st.states.length = bandits.length →
    st.preds.length = bandits.length →
    ((List.range' j k).foldl (offlineChunkStep isQuick bandits td tc chunkSize) st).preds
      = List.zipWith (· ++ ·) st.preds
          (runChunkBandits false [] (tc.drop (j * chunkSize))
            (td.drop (j * chunkSize)).length none (bandits.zip st.states)).preds := by
  intro k
  induction k with
  | zero =>
    intro j st hjk hst hsp
    have hm : td.length ≤ j * chunkSize := by
      rw [← ceilDiv_le_iff td.length chunkSize j hc]
      omega
    have hdrop_tc : tc.drop (j * chunkSize) = [] :=
      List.drop_eq_nil_of_le (by omega)
    have hdrop_td : (td.drop (j * chunkSize)).length = 0 := by
      rw [List.length_drop]
      omega
    simp only [List.range'_zero, List.foldl_nil]
    rw [hdrop_tc, hdrop_td, runChunkBandits_preds_nil,
      zipWith_append_map_nil]
    rw [hsp, List.length_zip, hst]
    simp
  | succ k ih =>
    intro j st hjk hst hsp
    have hjm : j < ceilDiv td.length chunkSize := by omega
    have hjc : j * chunkSize < td.length := by
      by_contra hcon
      have := (ceilDiv_le_iff td.length chunkSize j hc).mpr (by omega)
      omega
    have hstop_le : min ((j + 1) * chunkSize) td.length ≤ td.length :=
      Nat.min_le_right _ _
    have hstart_le : j * chunkSize ≤ min ((j + 1) * chunkSize) td.length := by
      rw [Nat.succ_mul]
      omega
    rw [List.range'_succ, List.foldl_cons]
    set stop := min ((j + 1) * chunkSize) td.length with hstopdef
    set st1 := offlineChunkStep isQuick bandits td tc chunkSize st j with hst1def
    have hout_states : st1.states
        = (runChunkBandits false [] (pySlice tc (j * chunkSize) stop)
            (pySlice td (j * chunkSize) stop).length none (bandits.zip st.states)).states := by
      rw [hst1def]
      rfl
    have hout_preds : st1.preds
        = List.zipWith (· ++ ·) st.preds
            (runChunkBandits false [] (pySlice tc (j * chunkSize) stop)
              (pySlice td (j * chunkSize) stop).length none
              (bandits.zip st.states)).preds := by
      rw [hst1def]
      rfl
    have hst1_states : st1.states.length = bandits.length := by
      rw [hout_states, runChunkBandits_states_length, List.length_zip, hst]
      simp
    have hst1_preds : st1.preds.length = bandits.length := by
      rw [hout_preds, List.length_zipWith, hsp, runChunkBandits_preds_length,
        List.length_zip, hst]
      simp
    have hih := ih (j + 1) st1 (by omega) hst1_states hst1_preds
    rw [hih]
    -- decompose the remaining test set at the chunk boundary
    have hsplit_tc : tc.drop (j * chunkSize)
        = pySlice tc (j * chunkSize) stop ++ tc.drop stop := by
      apply drop_eq_slice_append tc (j * chunkSize) stop hstart_le
      omega
    have hsplit_n : (td.drop (j * chunkSize)).length
        = (pySlice td (j * chunkSize) stop).length + (td.drop stop).length := by
      rw [List.length_drop, pySlice_length, List.length_drop]
      omega
    have hdrop2_tc : tc.drop stop = tc.drop ((j + 1) * chunkSize) := by
      rcases Nat.le_total ((j + 1) * chunkSize) td.length with h | h
      · rw [hstopdef, Nat.min_eq_left h]
      · rw [List.drop_eq_nil_of_le, List.drop_eq_nil_of_le]
        · omega
        · rw [hstopdef]
          omega
    have hdrop2_td : (td.drop stop).length = (td.drop ((j + 1) * chunkSize)).length := by
      rw [List.length_drop, List.length_drop]
      rw [hstopdef]
      omega
    have hsplitrun := runChunkBandits_split (pySlice tc (j * chunkSize) stop)
      (tc.drop stop) (pySlice td (j * chunkSize) stop).length (td.drop stop).length
      bandits st.states none
    simp only [Option.map_none'] at hsplitrun
    rw [hsplit_tc, hsplit_n, hsplitrun.1, ← zipWith_append_assoc, ← hout_preds,
      ← hout_states, hdrop2_tc, hdrop2_td]

/-- Supporting result for C2: the offline replay loop tiles its chunks
correctly, and its concatenated predictions — distance-cache sharing
included — equal those of a single non-chunked pass over the whole test set
for every chunk size of at least one.  The online loop violates this only
because its chunk window never advances. -/
theorem offline_chunked_eq_single_pass (isQuick : Bool) (bandits : List Policy)
    (td : List Int) (tc : List (List ℚ)) (chunkSize : Nat) (states0 : List Nat)
    (hc : 0 < chunkSize) (hlen : tc.length = td.length)
    (hs : states0.length = bandits.length) :
    (offlineRun isQuick bandits td tc chunkSize states0).preds
      = specSinglePassPreds bandits states0 td tc := by
  have h := offline_tail_preds isQuick bandits td tc chunkSize hc hlen
    (ceilDiv td.length chunkSize) 0 (initOfflineState bandits states0)
    (by omega) (by simp [initOfflineState, hs]) (by simp [initOfflineState])
  have hrun : (offlineRun isQuick bandits td tc chunkSize states0).preds
      = (offlineChunkPhase isQuick bandits td tc chunkSize states0).preds := rfl
  have hphase : (offlineChunkPhase isQuick bandits td tc chunkSize states0).preds
      = ((List.range' 0 (ceilDiv td.length chunkSize)).foldl
          (offlineChunkStep isQuick bandits td tc chunkSize)
          (initOfflineState bandits states0)).preds := by
    rw [offlineChunkPhase, List.range_eq_range']
  rw [hrun, hphase, h]
  simp only [initOfflineState, Nat.zero_mul, List.drop_zero]
  rw [zipWith_append_map_nil_left]
  · rfl
  · rw [runChunkBandits_preds_length, List.length_zip, hs]
    simp

end MabSim
















